import Mathlib

/-!
Verification development for the laserscape layer-splitting tool
(`laserscape.py`).  The Python source is shallowly embedded: the label
grammar (regular pattern `(engrave|cut)(-\d+)?(x\d+)?(f\d+)?(s\d+)?`
applied with `re.search` on the lower-cased label) becomes an explicit
leftmost, greedy matcher; Python exceptions (`AttributeError` raised by
`.group` on a failed search, `ValueError` raised on an absent group)
become an `Except` monad; `list.sort()` (a stable ascending sort driven
by `Layer.__lt__`, which compares priorities) becomes `List.mergeSort`,
which is likewise a stable sort; file writes become an abstract
`renderOk` oracle recording attempted writes.

The regular pattern above never needs backtracking: every optional group
is a letter followed by a greedy digit run, and the letter of each later
group is not a digit, so the greedy sequential parse below computes
exactly the groups `re.search` produces.  `\d` and `str.lower` are
modelled on ASCII, which covers the grammar's alphabet.
-/

/-- Python `str.lower`, on the ASCII range (models `self.label.lower()`). -/
def lowerStr (s : List Char) : List Char := s.map Char.toLower

/-- Python `int` applied to a non-empty decimal digit string. -/
def natOfDigits (ds : List Char) : Nat :=
  ds.foldl (fun acc c => 10 * acc + (c.toNat - 48)) 0

/-- Greedy digit run: models a `\d+` group (maximal munch), returning the
run and the remainder. -/
def takeDigits : List Char → List Char × List Char
  | [] => ([], [])
  | c :: rest =>
    if c.isDigit then
      let p := takeDigits rest
      (c :: p.1, p.2)
    else ([], c :: rest)

/-- One optional group `(?P<g>c\d+)?` of the label pattern: if the input
starts with the letter `c` followed by at least one digit, consume the
group greedily and return its integer value (Python `int(m[1:])`);
otherwise consume nothing. -/
def optGroup (c : Char) (s : List Char) : Option Nat × List Char :=
  match s with
  | [] => (none, [])
  | c' :: rest =>
    if c' = c then
      match takeDigits rest with
      | ([], _) => (none, c' :: rest)
      | (ds, r) => (some (natOfDigits ds), r)
    else (none, c' :: rest)

/-- The named groups of `Layer.label_regex`. -/
structure LabelGroups where
  priority : Option Nat
  passes : Option Nat
  cut_speed : Option Nat
  laser_power : Option Nat
deriving Repr, DecidableEq

/-- The four optional groups after the `(engrave|cut)` alternative, in
their fixed order. -/
def parseGroups (s : List Char) : LabelGroups :=
  let pr := optGroup '-' s
  let pa := optGroup 'x' pr.2
  let cs := optGroup 'f' pa.2
  let lp := optGroup 's' cs.2
  ⟨pr.1, pa.1, cs.1, lp.1⟩

/-- Attempt of `Layer.label_regex` at one position: the alternative
`(engrave|cut)` must match here (`engrave` tried first, as in the
pattern), then the optional groups are parsed. -/
def matchHere (s : List Char) : Option LabelGroups :=
  if "engrave".data.isPrefixOf s then some (parseGroups (s.drop 7))
  else if "cut".data.isPrefixOf s then some (parseGroups (s.drop 3))
  else none

/-- Python `Layer.label_regex.search`: leftmost match of the pattern, or
`none` when no position matches. -/
def label_regex_search : List Char → Option LabelGroups
  | [] => none
  | c :: rest =>
    match matchHere (c :: rest) with
    | some g => some g
    | none => label_regex_search rest

/-- Whether a string starts with a decimal digit (the boundary condition
under which a greedy `\d+` run stops exactly before `rest`). -/
def headIsDigit : List Char → Bool
  | [] => false
  | c :: _ => c.isDigit

/-- Whether a string starts with the letter `c` followed by a digit,
i.e. whether the optional group `(?P<g>c\d+)?` would match here. -/
def startsWithGroup (c : Char) : List Char → Bool
  | c' :: d :: _ => c' == c && d.isDigit
  | _ => false

/-- Python `needle in hay` on strings (substring containment), used to
state when the label pattern has no match at any position. -/
def containsSeq (needle : List Char) : List Char → Bool
  | [] => needle.isEmpty
  | c :: rest => needle.isPrefixOf (c :: rest) || containsSeq needle rest

/-- The Python exceptions relevant to the label parser: `matches.group`
raises `AttributeError` when `search` returned `None`; the private
parsers raise `ValueError` when the group is absent. -/
inductive PyError where
  | attributeError
  | valueError
deriving Repr, DecidableEq

/-- The value of the `priority` property: an integer from the label, or
`float("inf")` when the label carries no priority group. -/
inductive Priority where
  | fin (n : Nat)
  | inf
deriving Repr, DecidableEq

/-- Python `<` between two priority values (`int` or `float("inf")`). -/
def Priority.lt : Priority → Priority → Bool
  | .fin a, .fin b => a < b
  | .fin _, .inf => true
  | .inf, _ => false

/-- Python `<=` between two priority values; agrees with `¬ b < a`. -/
def Priority.le : Priority → Priority → Bool
  | .inf, .inf => true
  | .inf, .fin _ => false
  | .fin _, .inf => true
  | .fin a, .fin b => a ≤ b

/-- A `laserscape.Layer`: a wrapper around an Inkscape layer exposing its
`ID` and `label`. -/
structure Layer where
  ID : Nat
  label : String
deriving Repr, DecidableEq

/-- Python `Layer.is_engrave_layer`: `self.label.lower().startswith("engrave")`. -/
def Layer.is_engrave_layer (l : Layer) : Bool :=
  "engrave".data.isPrefixOf (lowerStr l.label.data)

/-- Python `Layer.is_cut_layer`: `self.label.lower().startswith("cut")`. -/
def Layer.is_cut_layer (l : Layer) : Bool :=
  "cut".data.isPrefixOf (lowerStr l.label.data)

/-- Python `Layer._parse_priority`: search the pattern in the lower-cased
label (`AttributeError` when there is no match), then read the
`priority` group (`ValueError` when absent), else `int(m[1:])`. -/
def Layer.parse_priority (l : Layer) : Except PyError Nat :=
  match label_regex_search (lowerStr l.label.data) with
  | none => .error .attributeError
  | some g =>
    match g.priority with
    | none => .error .valueError
    | some n => .ok n

/-- Python `Layer.priority`: `_parse_priority`, with `ValueError` caught
and turned into `float("inf")`; `AttributeError` is not caught and
propagates. -/
def Layer.priority (l : Layer) : Except PyError Priority :=
  match l.parse_priority with
  | .ok n => .ok (.fin n)
  | .error .valueError => .ok .inf
  | .error .attributeError => .error .attributeError

/-- Python `Layer._parse_passes`: like `_parse_priority` for the `passes`
group. -/
def Layer.parse_passes (l : Layer) : Except PyError Nat :=
  match label_regex_search (lowerStr l.label.data) with
  | none => .error .attributeError
  | some g =>
    match g.passes with
    | none => .error .valueError
    | some n => .ok n

/-- Python `Layer.passes`: `_parse_passes`, with `ValueError` caught and
turned into the default `1`; `AttributeError` propagates. -/
def Layer.passes (l : Layer) : Except PyError Nat :=
  match l.parse_passes with
  | .ok n => .ok n
  | .error .valueError => .ok 1
  | .error .attributeError => .error .attributeError

/-- The sort key used by `Layer.__lt__`.  Inside `split_layers` the sort
runs only on layers whose label starts with `engrave` or `cut`, where
`Layer.priority` cannot raise, so the error branch is dead there. -/
def Layer.priorityVal (l : Layer) : Priority :=
  match l.priority with
  | .ok p => p
  | .error _ => .inf

/-- Python `Layer.__lt__`: `self.priority < other.priority`. -/
def Layer.lt (a b : Layer) : Bool :=
  Priority.lt a.priorityVal b.priorityVal

/-- The non-strict comparison `list.sort()` effectively sorts by: `a` may
stay before `b` exactly when `¬ (b < a)` under `Layer.__lt__`. -/
def layerLE (a b : Layer) : Bool := ! Layer.lt b a

/-- One step of a stable insertion sort: walk past the elements strictly
smaller than `x` and put `x` in front of the first element `y` with
`layerLE x y`, so an element inserted later never jumps over an equal
one inserted earlier. -/
def insertSorted (x : Layer) : List Layer → List Layer
  | [] => [x]
  | y :: ys => if layerLE x y then x :: y :: ys else y :: insertSorted x ys

/-- Python `list.sort()`: a stable ascending sort driven by `__lt__`;
modelled by a stable insertion sort (proved below to be sorted for
`layerLE` and stable, the two properties that characterise the result
of any stable sort, Python's included). -/
def sortLayers : List Layer → List Layer
  | [] => []
  | x :: xs => insertSorted x (sortLayers xs)

/-- The role `split_layers` routes a layer by: `is_cut_layer` is checked
first, then `is_engrave_layer`, else the layer is ignored. -/
inductive Role where
  | Engrave
  | Cut
  | Ignored
deriving Repr, DecidableEq

/-- Classification of one layer, mirroring the branch order of the loop
in `split_layers`. -/
def role (l : Layer) : Role :=
  if l.is_cut_layer then .Cut
  else if l.is_engrave_layer then .Engrave
  else .Ignored

/-- The routing loop of `split_layers`: each layer is appended to the
bucket selected by its role, preserving input order inside each bucket. -/
def route : List Layer → List Layer × List Layer × List Layer
  | [] => ([], [], [])
  | l :: rest =>
    let r := route rest
    if l.is_cut_layer then (r.1, l :: r.2.1, r.2.2)
    else if l.is_engrave_layer then (l :: r.1, r.2.1, r.2.2)
    else (r.1, r.2.1, l :: r.2.2)

/-- Python `split_layers`: bucket every layer, then sort the engrave and
cut buckets in place (`engrave_layers.sort(); cut_layers.sort()`). -/
def split_layers (layers : List Layer) : List Layer × List Layer × List Layer :=
  let r := route layers
  (sortLayers r.1, sortLayers r.2.1, r.2.2)

/-- A `pyinkscape.Canvas` as the splitter observes it: the list of its
layers, in document order (`canvas.layers()`). -/
abbrev Canvas := List Layer

/-- Python `copy_with_only_this_layer`: deep-copy the canvas and delete
every layer whose `ID` differs from the kept layer's `ID`. -/
def copy_with_only_this_layer (canvas : Canvas) (layer : Layer) : Canvas :=
  canvas.filter (fun l => l.ID == layer.ID)

/-- The source path as `split` decomposes it with `pathlib.PurePath`:
`parent`, `stem` (name without extension) and the extension. -/
structure SrcPath where
  parent : String
  stem : String
  ext : String
deriving Repr, DecidableEq

/-- The output path `split` builds for one layer:
`output_directory / (base_name + "-" + layer.label + ".svg")` — the
extension is the literal `".svg"`, independent of the source's. -/
def outputPath (src : SrcPath) (label : String) : String :=
  src.parent ++ "/" ++ src.stem ++ "-" ++ label ++ ".svg"

/-- One call of `c.render(output_path, overwrite=overwrite)`: the path it
was given and the document it would persist. -/
structure WriteAttempt where
  path : String
  content : Canvas
deriving Repr, DecidableEq

/-- One of the two per-bucket loops of `split`.  `renderOk` abstracts the
outcome of `c.render` at a path (overwrite collisions, unwritable
destination, ...).  Each iteration deep-copies, then renders; a render
failure is a Python exception, so it ends the loop at once: the failing
attempt is recorded (render was called) and no later layer is reached.
Returns the attempted writes and the failing path, if any. -/
def renderLoop (renderOk : String → Bool) (canvas : Canvas) (src : SrcPath) :
    List Layer → List WriteAttempt × Option String
  | [] => ([], none)
  | layer :: rest =>
    let c := copy_with_only_this_layer canvas layer
    let p := outputPath src layer.label
    if renderOk p then
      let r := renderLoop renderOk canvas src rest
      (⟨p, c⟩ :: r.1, r.2)
    else ([⟨p, c⟩], some p)

/-- Python `split` (with `output_directory = inkscape_file_path.parent`):
partition the canvas's layers, render the engrave bucket, then the cut
bucket; ignored layers are only printed.  An exception in the engrave
loop propagates out of `split`, so the cut loop is never entered. -/
def split (renderOk : String → Bool) (src : SrcPath) (canvas : Canvas) :
    List WriteAttempt × Option String :=
  let buckets := split_layers canvas
  let eRun := renderLoop renderOk canvas src buckets.1
  match eRun.2 with
  | some e => (eRun.1, some e)
  | none =>
    let cRun := renderLoop renderOk canvas src buckets.2.1
    (eRun.1 ++ cRun.1, cRun.2)

/-- Spec-side characterisation of which writes `split` attempts: every
path up to and including the first one the renderer rejects (all of them
when none is rejected). -/
def splitAttemptsSpec (renderOk : String → Bool) (paths : List String) : List String :=
  match paths.dropWhile renderOk with
  | [] => paths
  | bad :: _ => paths.takeWhile renderOk ++ [bad]

/-- The ordered output paths of one run of `split`: the engrave bucket
then the cut bucket, each sorted, mapped to `outputPath`. -/
def orderedPaths (src : SrcPath) (canvas : Canvas) : List String :=
  ((split_layers canvas).1 ++ (split_layers canvas).2.1).map
    (fun l => outputPath src l.label)

/-- Modelled from the spec: the external compiler's
`formulas.linear_map(min, max, t)` maps `t` linearly so that `0 ↦ min`
and `1 ↦ max`; the repository calls it with `min = 0`, `max = 255` to
scale a laser power from `[0, 1]` onto the `S` range. -/
def linear_map (mn mx t : ℚ) : ℚ := (mx - mn) * t + mn

/-- The message of the `ValueError` raised by `patched_set_laser_power`. -/
def outOfBoundsMsg (power : ℚ) : String :=
  toString power ++ " is out of bounds. Laser power must be given between 0 and 1. " ++
    "The interface will scale it correctly."

/-- Python `patched_set_laser_power` (installed as
`interfaces.Gcode.set_laser_power`): raise `ValueError` when the power
lies outside `[0, 1]`, else emit `M3 S{floor(linear_map(0, 255, power))};`. -/
def patched_set_laser_power (power : ℚ) : Except String String :=
  if power < 0 ∨ power > 1 then .error (outOfBoundsMsg power)
  else .ok ("M3 S" ++ toString ⌊linear_map 0 255 power⌋ ++ ";")

/-- A point of the plane, with rational coordinates. -/
structure Point where
  x : ℚ
  y : ℚ
deriving Repr, DecidableEq

/-- One line segment of a `LineSegmentChain`. -/
structure Line where
  start : Point
  stop : Point
deriving Repr, DecidableEq

/-- Squared distance between two points.  The source compares
`abs(self.interface.position - start)` with `TOLERANCES["operation"]`;
comparing squared distance with the squared tolerance is the same test
and keeps the model rational. -/
def dist2 (p q : Point) : ℚ := (p.x - q.x) ^ 2 + (p.y - q.y) ^ 2

/-- Modelled from the spec: the compiler's configuration
(`Compiler(interface_class, movement_speed, cutting_speed, pass_depth)`,
with the library default `dwell_time = 0`). -/
structure CompilerParams where
  movement_speed : ℚ
  cutting_speed : ℚ
  pass_depth : ℚ
  dwell_time : ℚ
deriving Repr, DecidableEq

/-- Modelled from the spec: the gcode interface's instruction strings for
laser-off, movement-speed, linear-move and dwell; their exact text is
out of scope, only that they are emitted. -/
def laser_off : String := "M5;"

/-- Modelled from the spec: the movement-speed instruction. -/
def set_movement_speed (s : ℚ) : String := "G1 F" ++ toString s ++ ";"

/-- Modelled from the spec: the linear-move instruction; the interface
also records the new position. -/
def linear_move (p : Point) : String := "G1 X" ++ toString p.x ++ " Y" ++ toString p.y ++ ";"

/-- Modelled from the spec: the dwell instruction. -/
def dwell (t : ℚ) : String := "G4 P" ++ toString t ++ ";"

/-- The mutable compiler/interface state `patched_append_line_chain`
touches: the interface's current position (`None` on a fresh interface)
and the accumulated instruction body. -/
structure GState where
  position : Option Point
  body : List String
deriving Repr, DecidableEq

/-- Last endpoint of a non-empty chain: the interface position after the
per-line `linear_move` loop. -/
def chainEnd (first : Line) (rest : List Line) : Point :=
  (rest.getLastD first).stop

/-- Python `patched_append_line_chain` (with `tol2` the squared
`TOLERANCES["operation"]`): an empty chain only warns; otherwise, when
the interface has no position yet or is farther than the tolerance from
the chain's start, emit the setup block — whose construction calls
`set_laser_power(laser_power)` and therefore raises on an out-of-range
power — then one `linear_move` per line. -/
def append_line_chain (tol2 : ℚ) (params : CompilerParams) (laser_power : ℚ)
    (st : GState) (chain : List Line) : Except String GState :=
  match chain with
  | [] => .ok st
  | first :: rest =>
    let start := first.start
    let moves := (first :: rest).map (fun ln => linear_move ln.stop)
    let skipSetup : Bool :=
      match st.position with
      | none => false
      | some p => decide (dist2 p start ≤ tol2)
    if skipSetup then
      .ok ⟨some (chainEnd first rest), st.body ++ moves⟩
    else
      match patched_set_laser_power laser_power with
      | .error e => .error e
      | .ok powerCode =>
        let setup := [laser_off, set_movement_speed params.movement_speed,
          linear_move start, set_movement_speed params.cutting_speed, powerCode]
        let setup := if params.dwell_time > 0 then dwell params.dwell_time :: setup else setup
        .ok ⟨some (chainEnd first rest), st.body ++ setup ++ moves⟩

/-- Python `patched_append_curves`: each curve is approximated by a line
chain (the approximation is external geometry; a curve is represented
here by its chain) and appended in turn. -/
def append_curves (tol2 : ℚ) (params : CompilerParams) (laser_power : ℚ)
    (st : GState) (chains : List (List Line)) : Except String GState :=
  match chains with
  | [] => .ok st
  | chain :: rest =>
    match append_line_chain tol2 params laser_power st chain with
    | .error e => .error e
    | .ok st' => append_curves tol2 params laser_power st' rest

/-- Python `to_gcode`: a fresh compiler (`movement_speed=1000,
cutting_speed=300, pass_depth=0`, dwell 0) with a fresh interface
(`position = None`, empty body); `append_curves(curves, 5)`; only on
success is `drawing.gcode` written with the compiled body. -/
def to_gcode (tol2 : ℚ) (chains : List (List Line)) : Except String (String × List String) :=
  match append_curves tol2 ⟨1000, 300, 0, 0⟩ 5 ⟨none, []⟩ chains with
  | .error e => .error e
  | .ok st => .ok ("drawing.gcode", st.body)

/-! ## Helper lemmas: the sort relation -/

theorem Priority.le_refl (p : Priority) : Priority.le p p = true := by
  cases p <;> simp [Priority.le]

theorem Priority.not_lt_eq_le (p q : Priority) :
    (!Priority.lt q p) = Priority.le p q := by
  cases p <;> cases q <;>
    simp only [Priority.lt, Priority.le, Bool.not_true, Bool.not_false, ← decide_not,
      decide_eq_decide] <;> omega

theorem layerLE_eq_le (a b : Layer) :
    layerLE a b = Priority.le a.priorityVal b.priorityVal := by
  unfold layerLE Layer.lt
  exact Priority.not_lt_eq_le a.priorityVal b.priorityVal

theorem Priority.le_trans (p q r : Priority) :
    Priority.le p q = true → Priority.le q r = true → Priority.le p r = true := by
  intro h1 h2
  cases p <;> cases q <;> cases r <;> simp_all [Priority.le] <;> omega

theorem Priority.le_total (p q : Priority) :
    Priority.le p q || Priority.le q p := by
  cases p <;> cases q <;> simp [Priority.le] <;> omega

theorem layerLE_trans (a b c : Layer) :
    layerLE a b → layerLE b c → layerLE a c := by
  rw [layerLE_eq_le, layerLE_eq_le, layerLE_eq_le]
  exact Priority.le_trans _ _ _

theorem layerLE_total (a b : Layer) : layerLE a b || layerLE b a := by
  rw [layerLE_eq_le, layerLE_eq_le]
  exact Priority.le_total _ _

/-! ## Helper lemmas: `sortLayers` is a stable ascending sort -/

theorem insertSorted_perm (x : Layer) (l : List Layer) :
    List.Perm (insertSorted x l) (x :: l) := by
  induction l with
  | nil => exact List.Perm.refl _
  | cons y ys ih =>
    simp only [insertSorted]
    by_cases h : layerLE x y = true
    · simp [h]
    · simp only [h, ite_false]
      exact List.Perm.trans (ih.cons y) (List.Perm.swap x y ys)

theorem sortLayers_perm (l : List Layer) : List.Perm (sortLayers l) l := by
  induction l with
  | nil => exact List.Perm.refl _
  | cons x xs ih =>
    exact List.Perm.trans (insertSorted_perm x (sortLayers xs)) (ih.cons x)

theorem insertSorted_pairwise (x : Layer) (l : List Layer)
    (h : l.Pairwise (fun a b => layerLE a b = true)) :
    (insertSorted x l).Pairwise (fun a b => layerLE a b = true) := by
  induction l with
  | nil => simp [insertSorted]
  | cons y ys ih =>
    rw [List.pairwise_cons] at h
    simp only [insertSorted]
    by_cases hxy : layerLE x y = true
    · rw [if_pos hxy, List.pairwise_cons]
      refine ⟨?_, List.pairwise_cons.mpr h⟩
      intro b hb
      rcases List.mem_cons.mp hb with rfl | hb'
      · exact hxy
      · exact layerLE_trans x y b hxy (h.1 b hb')
    · rw [if_neg hxy, List.pairwise_cons]
      refine ⟨?_, ih h.2⟩
      intro b hb
      have hb' := (insertSorted_perm x ys).mem_iff.mp hb
      rcases List.mem_cons.mp hb' with rfl | hb''
      · have := layerLE_total b y
        cases hby : layerLE b y with
        | true => exact absurd hby hxy
        | false => simpa [hby] using this
      · exact h.1 b hb''

theorem sortLayers_sorted_le (l : List Layer) :
    (sortLayers l).Pairwise (fun a b => layerLE a b = true) := by
  induction l with
  | nil => simp [sortLayers]
  | cons x xs ih => exact insertSorted_pairwise x (sortLayers xs) ih

theorem sortLayers_sorted (l : List Layer) :
    (sortLayers l).Pairwise (fun a b => Priority.le a.priorityVal b.priorityVal = true) :=
  (sortLayers_sorted_le l).imp (fun hab => by rwa [layerLE_eq_le] at hab)

theorem insertSorted_filter_neg (x : Layer) (l : List Layer) (p : Priority)
    (hx : (x.priorityVal == p) = false) :
    (insertSorted x l).filter (fun a => a.priorityVal == p) =
      l.filter (fun a => a.priorityVal == p) := by
  induction l with
  | nil => simp [insertSorted, hx]
  | cons y ys ih =>
    simp only [insertSorted]
    by_cases hxy : layerLE x y = true
    · simp [hxy, List.filter_cons, hx]
    · rw [if_neg hxy]
      simp only [List.filter_cons]
      rw [ih]

theorem insertSorted_filter_pos (x : Layer) (l : List Layer) (p : Priority)
    (hl : l.Pairwise (fun a b => layerLE a b = true))
    (hx : (x.priorityVal == p) = true) :
    (insertSorted x l).filter (fun a => a.priorityVal == p) =
      x :: l.filter (fun a => a.priorityVal == p) := by
  induction l with
  | nil => simp [insertSorted, hx]
  | cons y ys ih =>
    rw [List.pairwise_cons] at hl
    simp only [insertSorted]
    by_cases hxy : layerLE x y = true
    · simp [hxy, List.filter_cons, hx]
    · have hy : (y.priorityVal == p) = false := by
        cases hyp : y.priorityVal == p with
        | false => rfl
        | true =>
          exfalso
          apply hxy
          rw [layerLE_eq_le, eq_of_beq hx, eq_of_beq hyp]
          exact Priority.le_refl p
      rw [if_neg hxy]
      simp only [List.filter_cons, hy, Bool.false_eq_true, ite_false]
      exact ih hl.2

theorem sortLayers_filter_key (l : List Layer) (p : Priority) :
    (sortLayers l).filter (fun x => x.priorityVal == p) =
      l.filter (fun x => x.priorityVal == p) := by
  induction l with
  | nil => rfl
  | cons x xs ih =>
    show (insertSorted x (sortLayers xs)).filter _ = _
    cases hx : x.priorityVal == p with
    | true =>
      rw [insertSorted_filter_pos x (sortLayers xs) p (sortLayers_sorted_le xs) hx, ih]
      simp [List.filter_cons, hx]
    | false =>
      rw [insertSorted_filter_neg x (sortLayers xs) p hx, ih]
      simp [List.filter_cons, hx]

/-! ## Helper lemmas: routing -/

theorem route_engrave (l : List Layer) :
    (route l).1 = l.filter (fun x => !x.is_cut_layer && x.is_engrave_layer) := by
  induction l with
  | nil => rfl
  | cons x xs ih =>
    simp only [route, List.filter_cons]
    cases hc : x.is_cut_layer <;> cases he : x.is_engrave_layer <;> simp [hc, he, ih]

theorem route_cut (l : List Layer) :
    (route l).2.1 = l.filter Layer.is_cut_layer := by
  induction l with
  | nil => rfl
  | cons x xs ih =>
    simp only [route, List.filter_cons]
    cases hc : x.is_cut_layer <;> cases he : x.is_engrave_layer <;> simp [hc, he, ih]

theorem route_ignored (l : List Layer) :
    (route l).2.2 = l.filter (fun x => !x.is_cut_layer && !x.is_engrave_layer) := by
  induction l with
  | nil => rfl
  | cons x xs ih =>
    simp only [route, List.filter_cons]
    cases hc : x.is_cut_layer <;> cases he : x.is_engrave_layer <;> simp [hc, he, ih]

theorem route_perm (l : List Layer) :
    List.Perm ((route l).1 ++ (route l).2.1 ++ (route l).2.2) l := by
  induction l with
  | nil => simp [route]
  | cons x xs ih =>
    simp only [route]
    cases hc : x.is_cut_layer <;> cases he : x.is_engrave_layer <;> simp only [if_pos, if_neg,
      Bool.false_eq_true, not_false_iff, ite_true, ite_false]
    case true.true | true.false =>
      refine List.Perm.trans ?_ ((ih).cons x)
      have := @List.perm_middle _ x (route xs).1 ((route xs).2.1 ++ (route xs).2.2)
      simpa using this
    case false.true =>
      exact List.Perm.trans (by simp) ((ih).cons x)
    case false.false =>
      refine List.Perm.trans ?_ ((ih).cons x)
      have := @List.perm_middle _ x ((route xs).1 ++ (route xs).2.1) (route xs).2.2
      simpa using this

/-! ## Helper lemmas: the two role tests are mutually exclusive -/

theorem Layer.engrave_not_cut (l : Layer) :
    l.is_engrave_layer = true → l.is_cut_layer = false := by
  unfold Layer.is_engrave_layer Layer.is_cut_layer
  generalize lowerStr l.label.data = s
  cases s with
  | nil => simp [List.isPrefixOf]
  | cons c rest =>
    show (('e' == c) && _) = true → (('c' == c) && _) = false
    intro h
    have he := ((Bool.and_eq_true _ _).mp h).1
    have hc : c = 'e' := (eq_of_beq he).symm
    subst hc
    rfl

/-! ## Claim theorems C1 - C3 -/

/-- C1: for every layer, the classifier (the routing of `split_layers`,
whose branch order is `is_cut_layer` then `is_engrave_layer`) assigns
role Engrave when the lower-cased label starts with `engrave`, Cut when
it starts with `cut`, and Ignored otherwise; in particular
`"ENGRAVE-2"` is Engrave, `"CuT-42"` is Cut and `"-foo"` is Ignored. -/
theorem C1_classifier_roles :
    (∀ l : Layer, l.is_engrave_layer = true → role l = .Engrave) ∧
    (∀ l : Layer, l.is_cut_layer = true → role l = .Cut) ∧
    (∀ l : Layer, l.is_engrave_layer = false → l.is_cut_layer = false → role l = .Ignored) ∧
    role ⟨0, "ENGRAVE-2"⟩ = .Engrave ∧ role ⟨0, "CuT-42"⟩ = .Cut ∧
    role ⟨0, "-foo"⟩ = .Ignored := by
  refine ⟨?_, ?_, ?_, by decide, by decide, by decide⟩
  · intro l he
    have hc : l.is_cut_layer = false := l.engrave_not_cut he
    simp [role, hc, he]
  · intro l hc
    simp [role, hc]
  · intro l he hc
    simp [role, hc, he]

/-- Closed instance of C1, discharging its hypotheses at a concrete layer. -/
theorem C1_classifier_roles_witness :
    Layer.is_engrave_layer ⟨7, "Engrave-9"⟩ = true ∧ role ⟨7, "Engrave-9"⟩ = .Engrave :=
  ⟨by decide, C1_classifier_roles.1 ⟨7, "Engrave-9"⟩ (by decide)⟩

/-- C2: `split_layers` is a set-partition of its input: the three bucket
lengths sum to the input length, the concatenation of the buckets is a
permutation of the input (so every input layer lands in exactly one
bucket, no duplicates, no omissions), each bucket holds only layers of
its role, and the empty input yields three empty buckets. -/
theorem C2_partition_invariant (layers : List Layer) :
    ((split_layers layers).1.length + (split_layers layers).2.1.length) +
      (split_layers layers).2.2.length = layers.length ∧
    List.Perm
      ((split_layers layers).1 ++ (split_layers layers).2.1 ++ (split_layers layers).2.2)
      layers ∧
    (∀ x ∈ (split_layers layers).1, role x = .Engrave) ∧
    (∀ x ∈ (split_layers layers).2.1, role x = .Cut) ∧
    (∀ x ∈ (split_layers layers).2.2, role x = .Ignored) ∧
    split_layers [] = ([], [], []) := by
  have h1 : (split_layers layers).1 = sortLayers ((route layers).1) := rfl
  have h2 : (split_layers layers).2.1 = sortLayers ((route layers).2.1) := rfl
  have h3 : (split_layers layers).2.2 = (route layers).2.2 := rfl
  have hperm : List.Perm
      ((split_layers layers).1 ++ (split_layers layers).2.1 ++ (split_layers layers).2.2)
      layers := by
    rw [h1, h2, h3]
    exact List.Perm.trans
      (((sortLayers_perm _).append (sortLayers_perm _)).append (List.Perm.refl _))
      (route_perm layers)
  refine ⟨?_, hperm, ?_, ?_, ?_, rfl⟩
  · have hlen := hperm.length_eq
    simp only [List.length_append] at hlen
    omega
  · intro x hx
    have hx' : x ∈ (route layers).1 := (sortLayers_perm _).mem_iff.mp (h1 ▸ hx)
    rw [route_engrave] at hx'
    obtain ⟨hnc, he⟩ := (Bool.and_eq_true _ _).mp (List.mem_filter.mp hx').2
    have hc : x.is_cut_layer = false := by simpa using hnc
    simp [role, hc, he]
  · intro x hx
    have hx' : x ∈ (route layers).2.1 := (sortLayers_perm _).mem_iff.mp (h2 ▸ hx)
    rw [route_cut] at hx'
    have hc := (List.mem_filter.mp hx').2
    simp [role, hc]
  · intro x hx
    have hx' : x ∈ (route layers).2.2 := h3 ▸ hx
    rw [route_ignored] at hx'
    obtain ⟨hnc, hne⟩ := (Bool.and_eq_true _ _).mp (List.mem_filter.mp hx').2
    have hc : x.is_cut_layer = false := by simpa using hnc
    have he : x.is_engrave_layer = false := by simpa using hne
    simp [role, hc, he]

/-- Closed instance of C2, discharging its hypotheses at a concrete input. -/
theorem C2_partition_invariant_witness :
    (⟨1, "cut"⟩ : Layer) ∈ (split_layers [⟨0, "x"⟩, ⟨1, "cut"⟩]).2.1 ∧
      role ⟨1, "cut"⟩ = .Cut :=
  ⟨by decide, (C2_partition_invariant [⟨0, "x"⟩, ⟨1, "cut"⟩]).2.2.2.1 ⟨1, "cut"⟩ (by decide)⟩

/-- C3: both non-ignored buckets of `split_layers` come out sorted
ascending by priority (pairwise `Priority.le` on the sort key, a total
order: so a strictly smaller priority always precedes a larger one), and
the sort is stable: restricted to any one priority value, each bucket
equals the input-ordered selection of that bucket's layers, i.e. equal
priorities keep their original input order. -/
theorem C3_buckets_sorted_and_stable (layers : List Layer) :
    ((split_layers layers).1.Pairwise
      (fun a b => Priority.le a.priorityVal b.priorityVal = true)) ∧
    ((split_layers layers).2.1.Pairwise
      (fun a b => Priority.le a.priorityVal b.priorityVal = true)) ∧
    (∀ p : Priority,
      (split_layers layers).1.filter (fun x => x.priorityVal == p) =
        (layers.filter (fun x => !x.is_cut_layer && x.is_engrave_layer)).filter
          (fun x => x.priorityVal == p)) ∧
    (∀ p : Priority,
      (split_layers layers).2.1.filter (fun x => x.priorityVal == p) =
        (layers.filter Layer.is_cut_layer).filter (fun x => x.priorityVal == p)) := by
  have h1 : (split_layers layers).1 = sortLayers ((route layers).1) := rfl
  have h2 : (split_layers layers).2.1 = sortLayers ((route layers).2.1) := rfl
  refine ⟨h1 ▸ sortLayers_sorted _, h2 ▸ sortLayers_sorted _, ?_, ?_⟩
  · intro p
    rw [h1, sortLayers_filter_key, route_engrave]
  · intro p
    rw [h2, sortLayers_filter_key, route_cut]

/-! ## Helper lemmas: the greedy group parser -/

theorem takeDigits_append (ds rest : List Char)
    (h1 : ds.all Char.isDigit = true) (h2 : headIsDigit rest = false) :
    takeDigits (ds ++ rest) = (ds, rest) := by
  induction ds with
  | nil =>
    cases rest with
    | nil => rfl
    | cons r rs =>
      have hr : r.isDigit = false := h2
      simp [takeDigits, hr]
  | cons d ds ih =>
    rw [List.all_cons, Bool.and_eq_true] at h1
    have ih' := ih h1.2
    simp [takeDigits, h1.1, ih']

theorem optGroup_hit (c : Char) (ds rest : List Char) (hne : ds ≠ [])
    (h1 : ds.all Char.isDigit = true) (h2 : headIsDigit rest = false) :
    optGroup c (c :: (ds ++ rest)) = (some (natOfDigits ds), rest) := by
  simp only [optGroup, if_pos rfl, takeDigits_append ds rest h1 h2]
  cases ds with
  | nil => exact absurd rfl hne
  | cons d ds' => rfl

theorem optGroup_miss (c : Char) (s : List Char)
    (h : startsWithGroup c s = false) :
    optGroup c s = (none, s) := by
  cases s with
  | nil => rfl
  | cons c' rest =>
    by_cases hc : c' = c
    · subst hc
      cases rest with
      | nil => simp [optGroup, takeDigits]
      | cons d r' =>
        have hd : d.isDigit = false := by
          have hh : ((c' == c') && d.isDigit) = false := h
          simpa using hh
        simp [optGroup, takeDigits, hd]
    · simp [optGroup, hc]

theorem isPrefixOf_append_self (a s : List Char) : a.isPrefixOf (a ++ s) = true := by
  induction a with
  | nil => simp [List.isPrefixOf]
  | cons c cs ih => simp [List.isPrefixOf, ih]

theorem matchHere_engrave (s : List Char) :
    matchHere ("engrave".data ++ s) = some (parseGroups s) := by
  unfold matchHere
  rw [if_pos (isPrefixOf_append_self "engrave".data s)]
  rw [@List.drop_left' _ "engrave".data s 7 rfl]

theorem matchHere_cut (s : List Char) :
    matchHere ("cut".data ++ s) = some (parseGroups s) := by
  unfold matchHere
  have hno : "engrave".data.isPrefixOf ("cut".data ++ s) = false := rfl
  rw [hno]
  simp only [Bool.false_eq_true, if_false]
  rw [if_pos (isPrefixOf_append_self "cut".data s)]
  rw [@List.drop_left' _ "cut".data s 3 rfl]

theorem label_regex_search_cons (c : Char) (rest : List Char) :
    label_regex_search (c :: rest) =
      match matchHere (c :: rest) with
      | some g => some g
      | none => label_regex_search rest := rfl

theorem search_at_engrave (s : List Char) :
    label_regex_search ("engrave".data ++ s) = some (parseGroups s) := by
  show label_regex_search ('e' :: ("ngrave".data ++ s)) = some (parseGroups s)
  rw [label_regex_search_cons]
  have h : matchHere ('e' :: ("ngrave".data ++ s)) = some (parseGroups s) :=
    matchHere_engrave s
  rw [h]

theorem search_at_cut (s : List Char) :
    label_regex_search ("cut".data ++ s) = some (parseGroups s) := by
  show label_regex_search ('c' :: ("ut".data ++ s)) = some (parseGroups s)
  rw [label_regex_search_cons]
  have h : matchHere ('c' :: ("ut".data ++ s)) = some (parseGroups s) :=
    matchHere_cut s
  rw [h]

theorem parseGroups_priority (s : List Char) :
    (parseGroups s).priority = (optGroup '-' s).1 := rfl

theorem parseGroups_passes (s : List Char) :
    (parseGroups s).passes = (optGroup 'x' (optGroup '-' s).2).1 := rfl

theorem search_at_role (pre t : List Char)
    (hpre : pre = "engrave".data ∨ pre = "cut".data) :
    label_regex_search (pre ++ t) = some (parseGroups t) := by
  rcases hpre with rfl | rfl
  · exact search_at_engrave t
  · exact search_at_cut t

theorem priority_of_search (l : Layer) (g : LabelGroups)
    (h : label_regex_search (lowerStr l.label.data) = some g) :
    l.priority = match g.priority with
      | some n => .ok (.fin n)
      | none => .ok .inf := by
  cases hg : g.priority with
  | some n => simp [Layer.priority, Layer.parse_priority, h, hg]
  | none => simp [Layer.priority, Layer.parse_priority, h, hg]

theorem passes_of_search (l : Layer) (g : LabelGroups)
    (h : label_regex_search (lowerStr l.label.data) = some g) :
    l.passes = match g.passes with
      | some n => .ok n
      | none => .ok 1 := by
  cases hg : g.passes with
  | some n => simp [Layer.passes, Layer.parse_passes, h, hg]
  | none => simp [Layer.passes, Layer.parse_passes, h, hg]

theorem startsWithGroup_of_ne (c c' : Char) (t : List Char) (h : (c' == c) = false) :
    startsWithGroup c (c' :: t) = false := by
  cases t <;> simp [startsWithGroup, h]

/-! ## Claim theorems C4 - C5 -/

/-- C4: for every label whose lower-casing starts with `engrave` or
`cut`, the parsed priority is the integer of the `-<int>` group when the
label continues with `-` and a maximal digit run (independently of what
follows), and `inf` (the model of `float("inf")`) when the label does
not continue with `-<digit>`; in particular `priority("Engrave-42") =
42`, `priority("cut-2") = 2`, `priority("cut") = inf`. -/
theorem C4_priority_parsing :
    (∀ (l : Layer) (pre ds rest : List Char),
      (pre = "engrave".data ∨ pre = "cut".data) →
      lowerStr l.label.data = pre ++ ('-' :: (ds ++ rest)) →
      ds ≠ [] → ds.all Char.isDigit = true → headIsDigit rest = false →
      l.priority = .ok (.fin (natOfDigits ds))) ∧
    (∀ (l : Layer) (pre rest : List Char),
      (pre = "engrave".data ∨ pre = "cut".data) →
      lowerStr l.label.data = pre ++ rest →
      startsWithGroup '-' rest = false →
      l.priority = .ok .inf) ∧
    Layer.priority ⟨0, "Engrave-42"⟩ = .ok (.fin 42) ∧
    Layer.priority ⟨0, "cut-2"⟩ = .ok (.fin 2) ∧
    Layer.priority ⟨0, "cut"⟩ = .ok .inf := by
  refine ⟨?_, ?_, rfl, rfl, rfl⟩
  · intro l pre ds rest hpre hlab hne h1 h2
    have hs : label_regex_search (lowerStr l.label.data) =
        some (parseGroups ('-' :: (ds ++ rest))) := by
      rw [hlab]; exact search_at_role pre _ hpre
    have hp := priority_of_search l _ hs
    rw [parseGroups_priority, optGroup_hit '-' ds rest hne h1 h2] at hp
    exact hp
  · intro l pre rest hpre hlab hmiss
    have hs : label_regex_search (lowerStr l.label.data) = some (parseGroups rest) := by
      rw [hlab]; exact search_at_role pre _ hpre
    have hp := priority_of_search l _ hs
    rw [parseGroups_priority, optGroup_miss '-' rest hmiss] at hp
    exact hp

/-- Closed instance of C4, discharging its hypotheses at a concrete label. -/
theorem C4_priority_parsing_witness :
    Layer.priority ⟨3, "CUT-17x2"⟩ = .ok (.fin 17) :=
  C4_priority_parsing.1 ⟨3, "CUT-17x2"⟩ "cut".data "17".data "x2".data (Or.inr rfl)
    (by decide) (by decide) (by decide) (by decide)

/-- C5: for every label whose lower-casing starts with `engrave` or
`cut`, the parsed passes count is the integer of the `x<int>` group when
it is present after the optional priority group, and defaults to `1`
when the group is absent or malformed (no digit after `x`); in
particular `passes("Engrave-42") = 1`, `passes("cutx42") = 42`,
`passes("cut-5x2") = 2`, `passes("engrave-45x3") = 3`. -/
theorem C5_passes_parsing :
    (∀ (l : Layer) (pre mid ds rest : List Char),
      (pre = "engrave".data ∨ pre = "cut".data) →
      lowerStr l.label.data = pre ++ (mid ++ ('x' :: (ds ++ rest))) →
      (mid = [] ∨ ∃ pds, mid = '-' :: pds ∧ pds ≠ [] ∧ pds.all Char.isDigit = true) →
      ds ≠ [] → ds.all Char.isDigit = true → headIsDigit rest = false →
      l.passes = .ok (natOfDigits ds)) ∧
    (∀ (l : Layer) (pre rest : List Char),
      (pre = "engrave".data ∨ pre = "cut".data) →
      lowerStr l.label.data = pre ++ rest →
      startsWithGroup 'x' (optGroup '-' rest).2 = false →
      l.passes = .ok 1) ∧
    Layer.passes ⟨0, "Engrave-42"⟩ = .ok 1 ∧
    Layer.passes ⟨0, "cutx42"⟩ = .ok 42 ∧
    Layer.passes ⟨0, "cut-5x2"⟩ = .ok 2 ∧
    Layer.passes ⟨0, "engrave-45x3"⟩ = .ok 3 := by
  refine ⟨?_, ?_, rfl, rfl, rfl, rfl⟩
  · intro l pre mid ds rest hpre hlab hmid hne h1 h2
    have hs : label_regex_search (lowerStr l.label.data) =
        some (parseGroups (mid ++ ('x' :: (ds ++ rest)))) := by
      rw [hlab]; exact search_at_role pre _ hpre
    have hp := passes_of_search l _ hs
    have hdash : (optGroup '-' (mid ++ ('x' :: (ds ++ rest)))).2 = 'x' :: (ds ++ rest) := by
      rcases hmid with rfl | ⟨pds, rfl, pne, pall⟩
      · rw [List.nil_append,
          optGroup_miss '-' ('x' :: (ds ++ rest)) (startsWithGroup_of_ne _ _ _ (by decide))]
      · rw [List.cons_append, optGroup_hit '-' pds ('x' :: (ds ++ rest)) pne pall rfl]
    rw [parseGroups_passes, hdash,
      optGroup_hit 'x' ds rest hne h1 h2] at hp
    exact hp
  · intro l pre rest hpre hlab hmiss
    have hs : label_regex_search (lowerStr l.label.data) = some (parseGroups rest) := by
      rw [hlab]; exact search_at_role pre _ hpre
    have hp := passes_of_search l _ hs
    rw [parseGroups_passes, optGroup_miss 'x' _ hmiss] at hp
    exact hp

/-- Closed instance of C5, discharging its hypotheses at a concrete label. -/
theorem C5_passes_parsing_witness :
    Layer.passes ⟨9, "Cut-5x2f100"⟩ = .ok 2 :=
  C5_passes_parsing.1 ⟨9, "Cut-5x2f100"⟩ "cut".data "-5".data "2".data "f100".data
    (Or.inr rfl) (by decide) (Or.inr ⟨"5".data, by decide, by decide, by decide⟩)
    (by decide) (by decide) (by decide)

/-! ## Claim theorem C8 -/

/-- C8: `patched_set_laser_power` raises its `ValueError` exactly when
the supplied power lies outside `[0, 1]`; inside the range it returns an
instruction string and no error. -/
theorem C8_power_validation (power : ℚ) :
    ((∃ s, patched_set_laser_power power = .ok s) ↔ (0 ≤ power ∧ power ≤ 1)) ∧
    (patched_set_laser_power power = .error (outOfBoundsMsg power) ↔
      (power < 0 ∨ 1 < power)) := by
  by_cases h : power < 0 ∨ power > 1
  · have he : patched_set_laser_power power = .error (outOfBoundsMsg power) := by
      unfold patched_set_laser_power
      rw [if_pos h]
    constructor
    · constructor
      · rintro ⟨s, hs⟩
        rw [he] at hs
        exact Except.noConfusion hs
      · rintro ⟨h0, h1⟩
        rcases h with h | h <;> linarith
    · exact ⟨fun _ => h, fun _ => he⟩
  · have hok : patched_set_laser_power power =
        .ok ("M3 S" ++ toString ⌊linear_map 0 255 power⌋ ++ ";") := by
      unfold patched_set_laser_power
      rw [if_neg h]
    push_neg at h
    constructor
    · exact ⟨fun _ => h, fun _ => ⟨_, hok⟩⟩
    · constructor
      · intro hcontra
        rw [hok] at hcontra
        exact Except.noConfusion hcontra
      · intro hc
        rcases hc with hc | hc <;> linarith [h.1, h.2]

/-! ## Claim theorem C10 -/

theorem search_eq_none_iff (s : List Char) :
    label_regex_search s = none ↔
      (containsSeq "engrave".data s = false ∧ containsSeq "cut".data s = false) := by
  induction s with
  | nil => simp [label_regex_search, containsSeq, List.isEmpty]
  | cons c rest ih =>
    rw [label_regex_search_cons]
    cases he : "engrave".data.isPrefixOf (c :: rest) with
    | true => simp [matchHere, he, containsSeq]
    | false =>
      cases hc : "cut".data.isPrefixOf (c :: rest) with
      | true => simp [matchHere, he, hc, containsSeq]
      | false => simp [matchHere, he, hc, containsSeq, ih]

/-- C10: for every layer whose lower-cased label contains neither
`engrave` nor `cut` as a substring, the pattern search finds no match,
so reading `priority` or `passes` propagates an uncaught
`AttributeError` (only `ValueError` is caught) instead of returning the
documented defaults. -/
theorem C10_attribute_error (l : Layer)
    (he : containsSeq "engrave".data (lowerStr l.label.data) = false)
    (hc : containsSeq "cut".data (lowerStr l.label.data) = false) :
    l.priority = .error .attributeError ∧ l.passes = .error .attributeError := by
  have hs : label_regex_search (lowerStr l.label.data) = none :=
    (search_eq_none_iff _).mpr ⟨he, hc⟩
  constructor
  · simp [Layer.priority, Layer.parse_priority, hs]
  · simp [Layer.passes, Layer.parse_passes, hs]

/-- Closed instance of C10, discharging its hypotheses at a concrete label. -/
theorem C10_attribute_error_witness :
    Layer.priority ⟨0, "Background-2"⟩ = .error .attributeError ∧
      Layer.passes ⟨0, "Background-2"⟩ = .error .attributeError :=
  C10_attribute_error ⟨0, "Background-2"⟩ (by decide) (by decide)

/-! ## Claim theorem C9 -/

theorem set_laser_power_five :
    patched_set_laser_power 5 = .error (outOfBoundsMsg 5) := by
  unfold patched_set_laser_power
  rw [if_pos (by norm_num)]

theorem append_line_chain_err (tol2 : ℚ) (params : CompilerParams) (st : GState)
    (first : Line) (frest : List Line) (hpos : st.position = none) :
    append_line_chain tol2 params 5 st (first :: frest) = .error (outOfBoundsMsg 5) := by
  unfold append_line_chain
  rw [hpos]
  simp [set_laser_power_five]

theorem append_curves_err (tol2 : ℚ) (params : CompilerParams)
    (chains : List (List Line)) (st : GState) (hpos : st.position = none)
    (hx : ∃ ch ∈ chains, ch ≠ []) :
    append_curves tol2 params 5 st chains = .error (outOfBoundsMsg 5) := by
  induction chains generalizing st with
  | nil =>
    rcases hx with ⟨ch, h, _⟩
    cases h
  | cons ch rest ih =>
    cases ch with
    | nil =>
      have hstep : append_curves tol2 params 5 st ([] :: rest) =
          append_curves tol2 params 5 st rest := rfl
      rw [hstep]
      apply ih st hpos
      rcases hx with ⟨c, hc, hne⟩
      rcases List.mem_cons.mp hc with rfl | h'
      · exact absurd rfl hne
      · exact ⟨c, h', hne⟩
    | cons first frest =>
      have herr := append_line_chain_err tol2 params st first frest hpos
      unfold append_curves
      rw [herr]

/-- C9: whenever the parsed curves contain at least one curve whose
line-chain approximation is non-empty, `to_gcode` fails with the
power-out-of-range `ValueError` before writing any output: it hands the
constant laser power `5` to `append_curves`, the fresh interface starts
with `position = None` so the first non-empty chain reaches
`set_laser_power`, and `5 > 1` is rejected. -/
theorem C9_togcode_power_error (tol2 : ℚ) (chains : List (List Line))
    (hx : ∃ ch ∈ chains, ch ≠ []) :
    to_gcode tol2 chains = .error (outOfBoundsMsg 5) := by
  unfold to_gcode
  rw [append_curves_err tol2 ⟨1000, 300, 0, 0⟩ chains ⟨none, []⟩ rfl hx]

/-- Closed instance of C9, discharging its hypothesis at a concrete
one-segment input. -/
theorem C9_togcode_power_error_witness :
    to_gcode 0 [[⟨⟨0, 0⟩, ⟨1, 1⟩⟩]] = .error (outOfBoundsMsg 5) :=
  C9_togcode_power_error 0 [[⟨⟨0, 0⟩, ⟨1, 1⟩⟩]]
    ⟨[⟨⟨0, 0⟩, ⟨1, 1⟩⟩], by simp, by simp⟩

/-! ## Helper lemmas: the write loop of `split` -/

theorem renderLoop_cons_pos (renderOk : String → Bool) (canvas : Canvas) (src : SrcPath)
    (layer : Layer) (rest : List Layer)
    (hr : renderOk (outputPath src layer.label) = true) :
    renderLoop renderOk canvas src (layer :: rest) =
      (⟨outputPath src layer.label, copy_with_only_this_layer canvas layer⟩ ::
        (renderLoop renderOk canvas src rest).1,
       (renderLoop renderOk canvas src rest).2) := by
  conv_lhs => rw [renderLoop]
  simp [hr]

theorem renderLoop_cons_neg (renderOk : String → Bool) (canvas : Canvas) (src : SrcPath)
    (layer : Layer) (rest : List Layer)
    (hr : renderOk (outputPath src layer.label) = false) :
    renderLoop renderOk canvas src (layer :: rest) =
      ([⟨outputPath src layer.label, copy_with_only_this_layer canvas layer⟩],
       some (outputPath src layer.label)) := by
  conv_lhs => rw [renderLoop]
  simp [hr]

theorem renderLoop_spec (renderOk : String → Bool) (canvas : Canvas) (src : SrcPath)
    (ls : List Layer) :
    (renderLoop renderOk canvas src ls).1.map WriteAttempt.path =
      splitAttemptsSpec renderOk (ls.map (fun l => outputPath src l.label)) ∧
    (renderLoop renderOk canvas src ls).2 =
      ((ls.map (fun l => outputPath src l.label)).dropWhile renderOk).head? := by
  induction ls with
  | nil => exact ⟨rfl, rfl⟩
  | cons layer rest ih =>
    cases hr : renderOk (outputPath src layer.label) with
    | true =>
      have hpos := renderLoop_cons_pos renderOk canvas src layer rest hr
      cases hd : (rest.map (fun l => outputPath src l.label)).dropWhile renderOk with
      | nil =>
        constructor
        · simp [hpos, splitAttemptsSpec, List.dropWhile_cons_of_pos hr,
            List.takeWhile_cons_of_pos hr, hd, ih.1]
        · simp [hpos, List.dropWhile_cons_of_pos hr, hd, ih.2]
      | cons bad tl =>
        constructor
        · simp [hpos, splitAttemptsSpec, List.dropWhile_cons_of_pos hr,
            List.takeWhile_cons_of_pos hr, hd, ih.1]
        · simp [hpos, List.dropWhile_cons_of_pos hr, hd, ih.2]
    | false =>
      have hneg := renderLoop_cons_neg renderOk canvas src layer rest hr
      have hdrop : (outputPath src layer.label ::
            rest.map (fun l => outputPath src l.label)).dropWhile renderOk =
          outputPath src layer.label :: rest.map (fun l => outputPath src l.label) :=
        List.dropWhile_cons_of_neg (by simp [hr])
      have htake : (outputPath src layer.label ::
            rest.map (fun l => outputPath src l.label)).takeWhile renderOk = [] :=
        List.takeWhile_cons_of_neg (by simp [hr])
      constructor
      · simp [hneg, splitAttemptsSpec, hdrop, htake]
      · simp [hneg, hdrop]

theorem splitAttemptsSpec_append_all (r : String → Bool) (xs ys : List String)
    (h : ∀ x ∈ xs, r x = true) :
    splitAttemptsSpec r (xs ++ ys) = xs ++ splitAttemptsSpec r ys := by
  unfold splitAttemptsSpec
  rw [List.dropWhile_append_of_pos h, List.takeWhile_append_of_pos h]
  cases hd : ys.dropWhile r with
  | nil => rfl
  | cons bad tl => simp

theorem splitAttemptsSpec_append_bad (r : String → Bool) (xs ys : List String)
    (hd : xs.dropWhile r ≠ []) :
    splitAttemptsSpec r (xs ++ ys) = splitAttemptsSpec r xs := by
  have hlen : (xs.takeWhile r).length ≠ xs.length := by
    intro hcon
    have hsum := congrArg List.length (List.takeWhile_append_dropWhile r xs)
    rw [List.length_append] at hsum
    exact hd (List.length_eq_zero.mp (by omega))
  have hemp : (xs.dropWhile r).isEmpty = false := by
    cases h : xs.dropWhile r with
    | nil => exact absurd h hd
    | cons a b => rfl
  unfold splitAttemptsSpec
  rw [List.dropWhile_append, if_neg (by simp [hemp]), List.takeWhile_append, if_neg hlen]
  cases h : xs.dropWhile r with
  | nil => exact absurd h hd
  | cons bad tl => simp

/-! ## Claim theorems C6 - C7 -/

/-- C6 is false as stated: with two cut layers and a renderer that
always fails, `split` issues only the first write attempt and stops; the
second cut layer's write is never attempted. -/
theorem C6_counterexample :
    (split_layers [⟨0, "cut-1"⟩, ⟨1, "cut-2"⟩]).2.1.length = 2 ∧
    (split (fun _ => false) ⟨"d", "doc", ".svg"⟩ [⟨0, "cut-1"⟩, ⟨1, "cut-2"⟩]).1 =
      [⟨"d/doc-cut-1.svg", [⟨0, "cut-1"⟩]⟩] ∧
    (split (fun _ => false) ⟨"d", "doc", ".svg"⟩ [⟨0, "cut-1"⟩, ⟨1, "cut-2"⟩]).2 =
      some "d/doc-cut-1.svg" :=
  ⟨rfl, rfl, rfl⟩

/-- C6 amended: a render failure for one layer propagates out of `split`
and prevents the write attempts for the remaining layers: the attempted
writes are exactly the ordered non-ignored output paths up to and
including the first one the renderer rejects (all of them when every
render succeeds), and the reported failure is that first rejected path. -/
theorem C6_first_failure_aborts (renderOk : String → Bool) (src : SrcPath) (canvas : Canvas) :
    (split renderOk src canvas).1.map WriteAttempt.path =
      splitAttemptsSpec renderOk (orderedPaths src canvas) ∧
    (split renderOk src canvas).2 =
      ((orderedPaths src canvas).dropWhile renderOk).head? := by
  have he := renderLoop_spec renderOk canvas src (split_layers canvas).1
  have hc := renderLoop_spec renderOk canvas src (split_layers canvas).2.1
  unfold orderedPaths
  rw [List.map_append]
  cases herr : (renderLoop renderOk canvas src (split_layers canvas).1).2 with
  | some e =>
    have hsplit : split renderOk src canvas =
        ((renderLoop renderOk canvas src (split_layers canvas).1).1, some e) := by
      simp only [split]
      rw [herr]
    have hdne : ((split_layers canvas).1.map
        (fun l => outputPath src l.label)).dropWhile renderOk ≠ [] := by
      intro hnil
      rw [he.2, hnil] at herr
      exact Option.noConfusion herr
    have hemp : (((split_layers canvas).1.map
        (fun l => outputPath src l.label)).dropWhile renderOk).isEmpty = false := by
      cases h : ((split_layers canvas).1.map
          (fun l => outputPath src l.label)).dropWhile renderOk with
      | nil => exact absurd h hdne
      | cons a b => rfl
    constructor
    · rw [hsplit, splitAttemptsSpec_append_bad renderOk _ _ hdne]
      exact he.1
    · rw [hsplit, List.dropWhile_append, if_neg (by simp [hemp]), List.head?_append,
        ← he.2, herr]
      rfl
  | none =>
    have hsplit : split renderOk src canvas =
        ((renderLoop renderOk canvas src (split_layers canvas).1).1 ++
          (renderLoop renderOk canvas src (split_layers canvas).2.1).1,
         (renderLoop renderOk canvas src (split_layers canvas).2.1).2) := by
      simp only [split]
      rw [herr]
    have hnil : ((split_layers canvas).1.map
        (fun l => outputPath src l.label)).dropWhile renderOk = [] := by
      have hh := he.2
      rw [herr] at hh
      cases h : ((split_layers canvas).1.map
          (fun l => outputPath src l.label)).dropWhile renderOk with
      | nil => rfl
      | cons a b =>
        rw [h] at hh
        exact Option.noConfusion hh
    have hall : ∀ x ∈ (split_layers canvas).1.map (fun l => outputPath src l.label),
        renderOk x = true := List.dropWhile_eq_nil_iff.mp hnil
    constructor
    · rw [hsplit, List.map_append, he.1, hc.1,
        splitAttemptsSpec_append_all renderOk _ _ hall]
      congr 1
      unfold splitAttemptsSpec
      rw [hnil]
    · rw [hsplit, hc.2, List.dropWhile_append_of_pos hall]

/-! ## Helper lemmas: single-layer copies -/

theorem filter_ID_eq (canvas : Canvas) (l : Layer)
    (hmem : l ∈ canvas) (hnodup : (canvas.map Layer.ID).Nodup) :
    copy_with_only_this_layer canvas l = [l] := by
  unfold copy_with_only_this_layer
  induction canvas with
  | nil => cases hmem
  | cons x xs ih =>
    rw [List.map_cons, List.nodup_cons] at hnodup
    rcases List.mem_cons.mp hmem with rfl | hmem'
    · rw [List.filter_cons_of_pos (by simp)]
      have hnone : ∀ y ∈ xs, ¬((fun a => a.ID == l.ID) y = true) := by
        intro y hy hcon
        exact hnodup.1 (by
          rw [← eq_of_beq hcon]
          exact List.mem_map_of_mem Layer.ID hy)
      rw [List.filter_eq_nil_iff.mpr hnone]
    · have hx : (x.ID == l.ID) = false := by
        cases hb : x.ID == l.ID with
        | false => rfl
        | true =>
          exfalso
          apply hnodup.1
          rw [eq_of_beq hb]
          exact List.mem_map_of_mem Layer.ID hmem'
      rw [List.filter_cons_of_neg (by simp [hx])]
      exact ih hmem' hnodup.2

theorem bucket_mem_canvas (canvas : Canvas) (x : Layer)
    (hx : x ∈ (split_layers canvas).1 ++ (split_layers canvas).2.1) : x ∈ canvas := by
  rcases List.mem_append.mp hx with h | h
  · have h' : x ∈ (route canvas).1 := (sortLayers_perm _).mem_iff.mp h
    rw [route_engrave] at h'
    exact List.mem_of_mem_filter h'
  · have h' : x ∈ (route canvas).2.1 := (sortLayers_perm _).mem_iff.mp h
    rw [route_cut] at h'
    exact List.mem_of_mem_filter h'

theorem renderLoop_all_ok (canvas : Canvas) (src : SrcPath) (ls : List Layer) :
    renderLoop (fun _ => true) canvas src ls =
      (ls.map (fun l => ⟨outputPath src l.label, copy_with_only_this_layer canvas l⟩),
       none) := by
  induction ls with
  | nil => rfl
  | cons layer rest ih =>
    rw [renderLoop_cons_pos (fun _ => true) canvas src layer rest rfl, ih]
    rfl

/-- C7 is false as stated: the output extension is the literal `".svg"`,
not the source document's extension — splitting `drawing.png` writes
`drawing-cut.svg`, not the claimed `{stem}-{label}.{ext}` with
`{ext} = .png`. -/
theorem C7_counterexample :
    (split (fun _ => true) ⟨"d", "drawing", ".png"⟩ [⟨0, "cut"⟩]).1.map WriteAttempt.path =
      ["d/drawing-cut.svg"] ∧
    "d/drawing-cut.svg" ≠ "d/drawing-cut.png" :=
  ⟨rfl, by decide⟩

/-- C7 amended: with every render succeeding and distinct layer IDs,
`split` issues exactly one write per non-ignored layer, in
engrave-then-cut bucket order, at path
`{parent}/{stem}-{label}.svg` — with the literal `.svg` extension, which
matches the source extension only when the source is itself `.svg` —
each write containing exactly the one surviving layer filtered out of an
unmodified copy of the source canvas (the embedding is pure: the source
canvas value is never mutated). -/
theorem C7_split_outputs (src : SrcPath) (canvas : Canvas)
    (hnodup : (canvas.map Layer.ID).Nodup) :
    (split (fun _ => true) src canvas).2 = none ∧
    (split (fun _ => true) src canvas).1.length =
      (split_layers canvas).1.length + (split_layers canvas).2.1.length ∧
    (split (fun _ => true) src canvas).1.map WriteAttempt.path =
      ((split_layers canvas).1 ++ (split_layers canvas).2.1).map
        (fun l => src.parent ++ "/" ++ src.stem ++ "-" ++ l.label ++ ".svg") ∧
    (split (fun _ => true) src canvas).1.map WriteAttempt.content =
      ((split_layers canvas).1 ++ (split_layers canvas).2.1).map (fun l => [l]) := by
  have hsplit : split (fun _ => true) src canvas =
      (((split_layers canvas).1 ++ (split_layers canvas).2.1).map
        (fun l => ⟨outputPath src l.label, copy_with_only_this_layer canvas l⟩), none) := by
    simp only [split, renderLoop_all_ok canvas src (split_layers canvas).1,
      renderLoop_all_ok canvas src (split_layers canvas).2.1, List.map_append]
  rw [hsplit]
  refine ⟨rfl, ?_, ?_, ?_⟩
  · simp
  · rw [List.map_map]
    rfl
  · rw [List.map_map]
    apply List.map_congr_left
    intro a ha
    exact filter_ID_eq canvas a (bucket_mem_canvas canvas a ha) hnodup

/-- Closed instance of the amended C7, discharging its hypothesis at a
concrete three-layer canvas. -/
theorem C7_split_outputs_witness :
    (([⟨0, "engrave-2"⟩, ⟨1, "cut"⟩, ⟨2, "notes"⟩] : Canvas).map Layer.ID).Nodup ∧
    (split (fun _ => true) ⟨"p", "doc", ".svg"⟩
        [⟨0, "engrave-2"⟩, ⟨1, "cut"⟩, ⟨2, "notes"⟩]).1.map WriteAttempt.content =
      ((split_layers [⟨0, "engrave-2"⟩, ⟨1, "cut"⟩, ⟨2, "notes"⟩]).1 ++
        (split_layers [⟨0, "engrave-2"⟩, ⟨1, "cut"⟩, ⟨2, "notes"⟩]).2.1).map
          (fun l => [l]) :=
  ⟨by decide, (C7_split_outputs ⟨"p", "doc", ".svg"⟩
    [⟨0, "engrave-2"⟩, ⟨1, "cut"⟩, ⟨2, "notes"⟩] (by decide)).2.2.2⟩
